import Mathlib

/-!
Verification of the fallible-Vec library (`src/lib.rs`).

The library provides non-panicking growth operations on `Vec<T>`:
`try_push`, `try_reserve`, `try_extend_from_slice` (trait `FallibleVec`,
src/lib.rs:15-31, implemented at src/lib.rs:57-90), the raw growth engine
`try_extend_vec` (src/lib.rs:94-125), and the helper `try_read_to_end`
(src/lib.rs:45-52).

Shallow embedding choices:
* A `Vec<T>` is modelled as `FVec α`: the list of live elements (`data`)
  plus the capacity of the backing allocation (`cap`); the Rust length is
  `data.length`.  The Rust invariant `len ≤ cap` appears as a hypothesis.
* `usize` arithmetic is modelled on `Nat` with an explicit upper bound
  `um` standing for `usize::MAX` of the platform (2^64 - 1 on 64-bit,
  2^32 - 1 on 32-bit); `checked_mul` / `checked_add` return `none`
  exactly when the mathematical result exceeds `um`.
* The C allocator (`malloc` / `realloc`, src/lib.rs:10-13) is an oracle
  `alloc : Nat → Bool`: `alloc bytes = true` means the call for `bytes`
  bytes returns a non-null pointer.  Every operation returns, besides its
  `Result` and the final vector state, the list of byte sizes it requested
  from the allocator, so "no allocation was attempted" is statable.
* Element byte size `size_of::<T>()` is a parameter `sz`.
* Rust functions mutate the vector in place; the embedding passes the
  state explicitly, returning the final vector.  Error paths in the source
  return before the single mutation point (`mem::replace`,
  src/lib.rs:123), so they return the input vector unchanged.
-/

namespace FallibleVec

/-- `usize::MAX` on a 64-bit platform. -/
def usizeMax64 : Nat := 18446744073709551615

/-- `usize::MAX` on a 32-bit platform. -/
def usizeMax32 : Nat := 4294967295

/-- `usize::checked_mul` with `usize::MAX = um`. -/
def checked_mul (um a b : Nat) : Option Nat :=
  if a * b ≤ um then some (a * b) else none

/-- `usize::checked_add` with `usize::MAX = um`. -/
def checked_add (um a b : Nat) : Option Nat :=
  if a + b ≤ um then some (a + b) else none

/-- Model of Rust's `Vec<T>`: the stored elements and the capacity of the
backing allocation.  The backing pointer is not modelled (only its
allocation size, via `cap`, is observable in the claims). -/
structure FVec (α : Type) where
  data : List α
  cap : Nat
deriving DecidableEq, Repr

variable {α : Type}

/-- `Vec::len`. -/
def FVec.len (v : FVec α) : Nat := v.data.length

/-- Result of one fallible operation: the Rust `Result<(), ()>`, the final
state of the vector, and the byte sizes requested from the allocator. -/
abbrev VecRes (α : Type) := Except Unit Unit × FVec α × List Nat

/-- `try_extend_vec` (src/lib.rs:94-125): if `old_cap >= new_cap` it is a
no-op success; otherwise it computes `new_cap * size_of::<T>()` as a
checked multiplication (overflow is an error with no allocation attempted),
asks the allocator (`malloc` when `old_cap == 0`, else `realloc`) for that
many bytes, fails if the allocator returns null, and otherwise rebuilds the
vector from the new pointer with the old elements and capacity `new_cap`. -/
def try_extend_vec (um : Nat) (alloc : Nat → Bool) (sz : Nat)
    (vec : FVec α) (new_cap : Nat) : VecRes α :=
  if new_cap ≤ vec.cap then
    (Except.ok (), vec, [])
  else
    match checked_mul um new_cap sz with
    | none => (Except.error (), vec, [])
    | some new_size_bytes =>
      if alloc new_size_bytes then
        (Except.ok (), ⟨vec.data, new_cap⟩, [new_size_bytes])
      else
        (Except.error (), vec, [new_size_bytes])

/-- Rust `Vec::push`: appends the value.  If the vector is full, std grows
it (aborting the process on allocation failure); in this library every call
site guarantees `len < cap` beforehand (the `debug_assert` at
src/lib.rs:66), so the growth branch is inert and only its postcondition
`cap ≥ len` is modelled, via `max`. -/
def std_push (v : FVec α) (val : α) : FVec α :=
  ⟨v.data ++ [val], max v.cap (v.data.length + 1)⟩

/-- Rust `Vec::extend_from_slice`: appends clones of the slice.  As with
`std_push`, std growth (abort-on-failure) can only add capacity; in this
library the call site reserves first, so the `max` is inert. -/
def std_extend_from_slice (v : FVec α) (other : List α) : FVec α :=
  ⟨v.data ++ other, max v.cap (v.data.length + other.length)⟩

/-- `try_push` (src/lib.rs:59-70): when the vector is full, compute the new
capacity (`4` from capacity `0`, otherwise `checked_mul(old_cap, 2)`,
overflow being an error), grow via `try_extend_vec`, then push. -/
def try_push (um : Nat) (alloc : Nat → Bool) (sz : Nat)
    (v : FVec α) (val : α) : VecRes α :=
  if v.cap = v.len then
    match (if v.cap = 0 then some 4 else checked_mul um v.cap 2) with
    | none => (Except.error (), v, [])
    | some new_cap =>
      match try_extend_vec um alloc sz v new_cap with
      | (Except.ok _, v1, log) => (Except.ok (), std_push v1 val, log)
      | (Except.error e, v1, log) => (Except.error e, v1, log)
  else
    (Except.ok (), std_push v val, [])

/-- `try_reserve` (src/lib.rs:73-82): `available = capacity - length`
(the `checked_sub(...).expect` holds under the Vec invariant `len ≤ cap`);
if `additional > available`, grow to exactly
`capacity + (additional - available)`, a checked addition whose overflow is
an error; otherwise a no-op success. -/
def try_reserve (um : Nat) (alloc : Nat → Bool) (sz : Nat)
    (v : FVec α) (additional : Nat) : VecRes α :=
  let available := v.cap - v.len
  if additional > available then
    match checked_add um v.cap (additional - available) with
    | none => (Except.error (), v, [])
    | some new_cap => try_extend_vec um alloc sz v new_cap
  else
    (Except.ok (), v, [])

/-- `try_extend_from_slice` (src/lib.rs:85-89): reserve room for
`other.len()` more elements via `try_reserve`, then
`Vec::extend_from_slice`. -/
def try_extend_from_slice (um : Nat) (alloc : Nat → Bool) (sz : Nat)
    (v : FVec α) (other : List α) : VecRes α :=
  match try_reserve um alloc sz v other.length with
  | (Except.ok _, v1, log) => (Except.ok (), std_extend_from_slice v1 other, log)
  | (Except.error e, v1, log) => (Except.error e, v1, log)

/-- `std::io::Take<T>` over a byte reader: the declared remaining limit
(a `u64`), the bytes the underlying reader will yield before end-of-source,
and whether the reader reports an I/O error after yielding them (before
end-of-source). -/
structure BoundedSource where
  limit : Nat
  contents : List Nat
  fails : Bool
deriving DecidableEq, Repr

/-- `u64::try_into::<usize>()` with `usize::MAX = um`. -/
def u64_to_usize (um n : Nat) : Option Nat :=
  if n ≤ um then some n else none

/-- `Read::read_to_end` on a `Take`: it appends bytes to the buffer as it
reads, up to `limit` bytes.  If the underlying reader errors before the
`Take` limit is reached, the error is returned with the bytes read so far
already appended; otherwise the number of bytes read is returned.  The
append uses std growth, modelled as in `std_extend_from_slice`. -/
def take_read_to_end (src : BoundedSource) (buf : FVec Nat) :
    Except Unit Nat × FVec Nat :=
  let got := src.contents.take src.limit
  if src.fails ∧ src.contents.length < src.limit then
    (Except.error (), std_extend_from_slice buf got)
  else
    (Except.ok got.length, std_extend_from_slice buf got)

/-- `try_read_to_end` (src/lib.rs:45-52): convert the source's declared
limit to `usize` (failing if it does not fit), `try_reserve` that many
bytes in the buffer (element size 1), then `read_to_end` from the source,
mapping an I/O error to the unit error. -/
def try_read_to_end (um : Nat) (alloc : Nat → Bool)
    (src : BoundedSource) (buf : FVec Nat) :
    Except Unit Nat × FVec Nat × List Nat :=
  match u64_to_usize um src.limit with
  | none => (Except.error (), buf, [])
  | some limit =>
    match try_reserve um alloc 1 buf limit with
    | (Except.ok _, buf1, log) =>
      match take_read_to_end src buf1 with
      | (Except.ok n, buf2) => (Except.ok n, buf2, log)
      | (Except.error _, buf2) => (Except.error (), buf2, log)
    | (Except.error _, buf1, log) => (Except.error (), buf1, log)

/-! ## Branch equations and state lemmas -/

theorem try_extend_vec_of_le (um sz new_cap : Nat) (alloc : Nat → Bool) (v : FVec α)
    (h : new_cap ≤ v.cap) :
    try_extend_vec um alloc sz v new_cap = (Except.ok (), v, []) := by
  simp [try_extend_vec, h]

theorem try_extend_vec_of_mul_none (um sz new_cap : Nat) (alloc : Nat → Bool) (v : FVec α)
    (h : ¬ new_cap ≤ v.cap) (hm : checked_mul um new_cap sz = none) :
    try_extend_vec um alloc sz v new_cap = (Except.error (), v, []) := by
  simp [try_extend_vec, h, hm]

theorem try_extend_vec_of_alloc_true (um sz new_cap nb : Nat) (alloc : Nat → Bool) (v : FVec α)
    (h : ¬ new_cap ≤ v.cap) (hm : checked_mul um new_cap sz = some nb) (ha : alloc nb = true) :
    try_extend_vec um alloc sz v new_cap = (Except.ok (), ⟨v.data, new_cap⟩, [nb]) := by
  simp [try_extend_vec, h, hm, ha]

theorem try_extend_vec_of_alloc_false (um sz new_cap nb : Nat) (alloc : Nat → Bool) (v : FVec α)
    (h : ¬ new_cap ≤ v.cap) (hm : checked_mul um new_cap sz = some nb) (ha : alloc nb = false) :
    try_extend_vec um alloc sz v new_cap = (Except.error (), v, [nb]) := by
  simp [try_extend_vec, h, hm, ha]

theorem try_extend_vec_ok_state (um sz new_cap : Nat) (alloc : Nat → Bool) (v : FVec α)
    (hok : (try_extend_vec um alloc sz v new_cap).1 = Except.ok ()) :
    (try_extend_vec um alloc sz v new_cap).2.1 = ⟨v.data, max v.cap new_cap⟩ := by
  by_cases h : new_cap ≤ v.cap
  · rw [try_extend_vec_of_le um sz new_cap alloc v h, Nat.max_eq_left h]
  · rcases hm : checked_mul um new_cap sz with _ | nb
    · rw [try_extend_vec_of_mul_none um sz new_cap alloc v h hm] at hok
      simp at hok
    · rcases ha : alloc nb with _ | _
      · rw [try_extend_vec_of_alloc_false um sz new_cap nb alloc v h hm ha] at hok
        simp at hok
      · rw [try_extend_vec_of_alloc_true um sz new_cap nb alloc v h hm ha,
          Nat.max_eq_right (Nat.le_of_not_le h)]

theorem try_extend_vec_err_state (um sz new_cap : Nat) (alloc : Nat → Bool) (v : FVec α) (e : Unit)
    (herr : (try_extend_vec um alloc sz v new_cap).1 = Except.error e) :
    (try_extend_vec um alloc sz v new_cap).2.1 = v := by
  by_cases h : new_cap ≤ v.cap
  · rw [try_extend_vec_of_le um sz new_cap alloc v h] at herr
    simp at herr
  · rcases hm : checked_mul um new_cap sz with _ | nb
    · rw [try_extend_vec_of_mul_none um sz new_cap alloc v h hm]
    · rcases ha : alloc nb with _ | _
      · rw [try_extend_vec_of_alloc_false um sz new_cap nb alloc v h hm ha]
      · rw [try_extend_vec_of_alloc_true um sz new_cap nb alloc v h hm ha] at herr
        simp at herr

theorem try_reserve_of_enough (um sz n : Nat) (alloc : Nat → Bool) (v : FVec α)
    (h : ¬ v.cap - v.len < n) :
    try_reserve um alloc sz v n = (Except.ok (), v, []) := by
  simp [try_reserve, h]

theorem try_reserve_of_add_none (um sz n : Nat) (alloc : Nat → Bool) (v : FVec α)
    (h : v.cap - v.len < n) (hm : checked_add um v.cap (n - (v.cap - v.len)) = none) :
    try_reserve um alloc sz v n = (Except.error (), v, []) := by
  simp [try_reserve, h, hm]

theorem try_reserve_of_add_some (um sz n nc : Nat) (alloc : Nat → Bool) (v : FVec α)
    (h : v.cap - v.len < n) (hm : checked_add um v.cap (n - (v.cap - v.len)) = some nc) :
    try_reserve um alloc sz v n = try_extend_vec um alloc sz v nc := by
  simp [try_reserve, h, hm]

theorem try_reserve_ok_state (um sz n : Nat) (alloc : Nat → Bool) (v : FVec α)
    (hinv : v.len ≤ v.cap)
    (hok : (try_reserve um alloc sz v n).1 = Except.ok ()) :
    (try_reserve um alloc sz v n).2.1 = ⟨v.data, max v.cap (v.len + n)⟩ := by
  by_cases h : v.cap - v.len < n
  · rcases hm : checked_add um v.cap (n - (v.cap - v.len)) with _ | nc
    · rw [try_reserve_of_add_none um sz n alloc v h hm] at hok
      simp at hok
    · rw [try_reserve_of_add_some um sz n nc alloc v h hm] at hok ⊢
      have hnc : nc = v.len + n := by
        unfold checked_add at hm
        split at hm
        · injection hm with hm
          omega
        · simp at hm
      rw [try_extend_vec_ok_state um sz nc alloc v hok, hnc]
  · rw [try_reserve_of_enough um sz n alloc v h, Nat.max_eq_left (by omega)]

theorem try_reserve_err_state (um sz n : Nat) (alloc : Nat → Bool) (v : FVec α) (e : Unit)
    (herr : (try_reserve um alloc sz v n).1 = Except.error e) :
    (try_reserve um alloc sz v n).2.1 = v := by
  by_cases h : v.cap - v.len < n
  · rcases hm : checked_add um v.cap (n - (v.cap - v.len)) with _ | nc
    · rw [try_reserve_of_add_none um sz n alloc v h hm]
    · rw [try_reserve_of_add_some um sz n nc alloc v h hm] at herr ⊢
      exact try_extend_vec_err_state um sz nc alloc v e herr
  · rw [try_reserve_of_enough um sz n alloc v h] at herr
    simp at herr

/-! ## Claims -/

/-- C1: for every vector satisfying the Vec invariant and every `n`,
`try_reserve(vec, n)` on success leaves the vector with
`capacity - length ≥ n`, and on failure leaves capacity, length and the
stored contents exactly as they were before the call. -/
theorem try_reserve_post (um sz n : Nat) (alloc : Nat → Bool) (v : FVec α)
    (hinv : v.len ≤ v.cap) :
    ((try_reserve um alloc sz v n).1 = Except.ok () →
      n ≤ (try_reserve um alloc sz v n).2.1.cap - (try_reserve um alloc sz v n).2.1.len) ∧
    (∀ e, (try_reserve um alloc sz v n).1 = Except.error e →
      (try_reserve um alloc sz v n).2.1 = v) := by
  constructor
  · intro hok
    rw [try_reserve_ok_state um sz n alloc v hinv hok]
    simp only [FVec.len]
    have := Nat.le_max_right v.cap (v.data.length + n)
    simp only [FVec.len] at this
    omega
  · intro e herr
    exact try_reserve_err_state um sz n alloc v e herr

theorem try_reserve_post_witness :
    FVec.len (⟨[], 0⟩ : FVec Nat) ≤ (⟨[], 0⟩ : FVec Nat).cap ∧
    (try_reserve usizeMax64 (fun _ => true) 1 (⟨[], 0⟩ : FVec Nat) 3).1 = Except.ok () ∧
    3 ≤ (try_reserve usizeMax64 (fun _ => true) 1 (⟨[], 0⟩ : FVec Nat) 3).2.1.cap
        - (try_reserve usizeMax64 (fun _ => true) 1 (⟨[], 0⟩ : FVec Nat) 3).2.1.len :=
  ⟨by decide, rfl,
    (try_reserve_post usizeMax64 1 3 (fun _ => true) (⟨[], 0⟩ : FVec Nat) (by decide)).1 rfl⟩

/-- C9: if `try_reserve(vec, n)` succeeds then an immediately following
`try_reserve(vec, m)` with `m ≤ n` succeeds, is a no-op (state, in
particular capacity, unchanged), and requests nothing from the allocator
— for any behaviour of the allocator on the second call. -/
theorem try_reserve_idem (um sz n m : Nat) (alloc alloc2 : Nat → Bool) (v : FVec α)
    (hinv : v.len ≤ v.cap) (hmn : m ≤ n)
    (hok : (try_reserve um alloc sz v n).1 = Except.ok ()) :
    try_reserve um alloc2 sz ((try_reserve um alloc sz v n).2.1) m
      = (Except.ok (), (try_reserve um alloc sz v n).2.1, []) := by
  rw [try_reserve_ok_state um sz n alloc v hinv hok]
  apply try_reserve_of_enough
  simp only [FVec.len]
  have := Nat.le_max_right v.cap (v.len + n)
  simp only [FVec.len] at this
  omega

theorem try_reserve_idem_witness :
    FVec.len (⟨[5], 1⟩ : FVec Nat) ≤ (⟨[5], 1⟩ : FVec Nat).cap ∧ 2 ≤ 3 ∧
    (try_reserve usizeMax64 (fun _ => true) 1 (⟨[5], 1⟩ : FVec Nat) 3).1 = Except.ok () ∧
    try_reserve usizeMax64 (fun _ => false) 1
        ((try_reserve usizeMax64 (fun _ => true) 1 (⟨[5], 1⟩ : FVec Nat) 3).2.1) 2
      = (Except.ok (), (try_reserve usizeMax64 (fun _ => true) 1 (⟨[5], 1⟩ : FVec Nat) 3).2.1, []) :=
  ⟨by decide, by decide, rfl,
    try_reserve_idem usizeMax64 1 3 2 (fun _ => true) (fun _ => false)
      (⟨[5], 1⟩ : FVec Nat) (by decide) (by decide) rfl⟩

/-- C10: a successful `try_reserve` modifies at most the capacity: the
length and the stored elements are identical before and after the call. -/
theorem try_reserve_frame (um sz n : Nat) (alloc : Nat → Bool) (v : FVec α)
    (hinv : v.len ≤ v.cap)
    (hok : (try_reserve um alloc sz v n).1 = Except.ok ()) :
    (try_reserve um alloc sz v n).2.1.data = v.data ∧
    (try_reserve um alloc sz v n).2.1.len = v.len := by
  rw [try_reserve_ok_state um sz n alloc v hinv hok]
  exact ⟨rfl, rfl⟩

theorem try_reserve_frame_witness :
    FVec.len (⟨[7, 8], 2⟩ : FVec Nat) ≤ (⟨[7, 8], 2⟩ : FVec Nat).cap ∧
    (try_reserve usizeMax64 (fun _ => true) 1 (⟨[7, 8], 2⟩ : FVec Nat) 10).1 = Except.ok () ∧
    (try_reserve usizeMax64 (fun _ => true) 1 (⟨[7, 8], 2⟩ : FVec Nat) 10).2.1.data = [7, 8] ∧
    (try_reserve usizeMax64 (fun _ => true) 1 (⟨[7, 8], 2⟩ : FVec Nat) 10).2.1.len
      = FVec.len (⟨[7, 8], 2⟩ : FVec Nat) :=
  ⟨by decide, rfl,
    (try_reserve_frame usizeMax64 1 10 (fun _ => true) (⟨[7, 8], 2⟩ : FVec Nat) (by decide) rfl).1,
    (try_reserve_frame usizeMax64 1 10 (fun _ => true) (⟨[7, 8], 2⟩ : FVec Nat) (by decide) rfl).2⟩


theorem try_push_of_not_full (um sz : Nat) (alloc : Nat → Bool) (v : FVec α) (x : α)
    (h : ¬ v.cap = v.len) :
    try_push um alloc sz v x = (Except.ok (), std_push v x, []) := by
  simp [try_push, h]

theorem try_push_of_full_none (um sz : Nat) (alloc : Nat → Bool) (v : FVec α) (x : α)
    (h : v.cap = v.len)
    (hnc : (if v.cap = 0 then some 4 else checked_mul um v.cap 2) = none) :
    try_push um alloc sz v x = (Except.error (), v, []) := by
  unfold try_push
  rw [if_pos h]
  simp only [hnc]

theorem try_push_of_full_ok (um sz nc : Nat) (alloc : Nat → Bool) (v v1 : FVec α) (x : α)
    (log : List Nat) (h : v.cap = v.len)
    (hnc : (if v.cap = 0 then some 4 else checked_mul um v.cap 2) = some nc)
    (htev : try_extend_vec um alloc sz v nc = (Except.ok (), v1, log)) :
    try_push um alloc sz v x = (Except.ok (), std_push v1 x, log) := by
  unfold try_push
  rw [if_pos h]
  simp only [hnc, htev]

theorem try_push_of_full_err (um sz nc : Nat) (alloc : Nat → Bool) (v v1 : FVec α) (x : α)
    (e : Unit) (log : List Nat) (h : v.cap = v.len)
    (hnc : (if v.cap = 0 then some 4 else checked_mul um v.cap 2) = some nc)
    (htev : try_extend_vec um alloc sz v nc = (Except.error e, v1, log)) :
    try_push um alloc sz v x = (Except.error e, v1, log) := by
  unfold try_push
  rw [if_pos h]
  simp only [hnc, htev]

/-- C2: a successful `try_push` appends exactly the pushed value: the new
length is the old length plus one, the new capacity is at least the new
length, every previously present element is unchanged at its logical
position and the pushed value is last (together: the new contents are the
old contents with the value appended). -/
theorem try_push_post (um sz : Nat) (alloc : Nat → Bool) (v : FVec α) (x : α)
    (hinv : v.len ≤ v.cap)
    (hok : (try_push um alloc sz v x).1 = Except.ok ()) :
    (try_push um alloc sz v x).2.1.data = v.data ++ [x] ∧
    (try_push um alloc sz v x).2.1.len = v.len + 1 ∧
    (try_push um alloc sz v x).2.1.len ≤ (try_push um alloc sz v x).2.1.cap := by
  by_cases h : v.cap = v.len
  · rcases hnc : (if v.cap = 0 then some 4 else checked_mul um v.cap 2) with _ | nc
    · rw [try_push_of_full_none um sz alloc v x h hnc] at hok
      simp at hok
    · rcases htev : try_extend_vec um alloc sz v nc with ⟨res, v1, log⟩
      cases res with
      | error e =>
        rw [try_push_of_full_err um sz nc alloc v v1 x e log h hnc htev] at hok
        simp at hok
      | ok u =>
        cases u
        have hv1 : v1 = ⟨v.data, max v.cap nc⟩ := by
          have hst := try_extend_vec_ok_state um sz nc alloc v (by rw [htev])
          rw [htev] at hst
          exact hst
        rw [try_push_of_full_ok um sz nc alloc v v1 x log h hnc htev, hv1]
        refine ⟨rfl, ?_, ?_⟩
        · simp [std_push, FVec.len]
        · simp only [std_push, FVec.len, List.length_append, List.length_cons,
            List.length_nil]
          exact le_max_right _ _
  · rw [try_push_of_not_full um sz alloc v x h]
    refine ⟨rfl, ?_, ?_⟩
    · simp [std_push, FVec.len]
    · simp only [std_push, FVec.len, List.length_append, List.length_cons,
        List.length_nil]
      exact le_max_right _ _

theorem try_push_post_witness :
    FVec.len (⟨[3], 1⟩ : FVec Nat) ≤ (⟨[3], 1⟩ : FVec Nat).cap ∧
    (try_push usizeMax64 (fun _ => true) 1 (⟨[3], 1⟩ : FVec Nat) 9).1 = Except.ok () ∧
    (try_push usizeMax64 (fun _ => true) 1 (⟨[3], 1⟩ : FVec Nat) 9).2.1.data = [3, 9] ∧
    (try_push usizeMax64 (fun _ => true) 1 (⟨[3], 1⟩ : FVec Nat) 9).2.1.len = 2 ∧
    (try_push usizeMax64 (fun _ => true) 1 (⟨[3], 1⟩ : FVec Nat) 9).2.1.len
      ≤ (try_push usizeMax64 (fun _ => true) 1 (⟨[3], 1⟩ : FVec Nat) 9).2.1.cap :=
  ⟨by decide, rfl,
    (try_push_post usizeMax64 1 (fun _ => true) (⟨[3], 1⟩ : FVec Nat) 9 (by decide) rfl).1,
    (try_push_post usizeMax64 1 (fun _ => true) (⟨[3], 1⟩ : FVec Nat) 9 (by decide) rfl).2.1,
    (try_push_post usizeMax64 1 (fun _ => true) (⟨[3], 1⟩ : FVec Nat) 9 (by decide) rfl).2.2⟩

/-- C3 counterexample: on a full vector of capacity 1 (length 1),
`try_push` grows the capacity to `2`, not to `max(4, capacity * 2) = 4`
as the claim states (the code uses `4` only from capacity `0`,
src/lib.rs:63). -/
theorem try_push_growth_cex :
    (try_push usizeMax64 (fun _ => true) 1 (⟨[0], 1⟩ : FVec Nat) 7).1 = Except.ok () ∧
    (try_push usizeMax64 (fun _ => true) 1 (⟨[0], 1⟩ : FVec Nat) 7).2.1.cap ≠ max 4 (1 * 2) :=
  ⟨rfl, by decide⟩

/-- C3 (amended): for every full vector (`length = capacity`), `try_push`
grows the capacity to `4` when the capacity is `0` and to `capacity * 2`
otherwise; it fails with the unit error, leaving the vector untouched and
the allocator uncalled, when doubling the capacity overflows `usize`; no
other growth amount is used. -/
theorem try_push_growth (um sz : Nat) (alloc : Nat → Bool) (v : FVec α) (x : α)
    (hfull : v.len = v.cap) :
    (v.cap ≠ 0 → um < v.cap * 2 →
      try_push um alloc sz v x = (Except.error (), v, [])) ∧
    ((try_push um alloc sz v x).1 = Except.ok () →
      (try_push um alloc sz v x).2.1.cap = if v.cap = 0 then 4 else v.cap * 2) := by
  have h : v.cap = v.len := hfull.symm
  constructor
  · intro hz hover
    apply try_push_of_full_none um sz alloc v x h
    rw [if_neg hz]
    unfold checked_mul
    rw [if_neg (by omega)]
  · intro hok
    rcases hnc : (if v.cap = 0 then some 4 else checked_mul um v.cap 2) with _ | nc
    · rw [try_push_of_full_none um sz alloc v x h hnc] at hok
      simp at hok
    · have hval : nc = if v.cap = 0 then 4 else v.cap * 2 := by
        by_cases hz : v.cap = 0
        · rw [if_pos hz] at hnc
          rw [if_pos hz]
          injection hnc with hnc
          omega
        · rw [if_neg hz] at hnc
          rw [if_neg hz]
          unfold checked_mul at hnc
          split at hnc
          · injection hnc with hnc
            omega
          · simp at hnc
      rcases htev : try_extend_vec um alloc sz v nc with ⟨res, v1, log⟩
      cases res with
      | error e =>
        rw [try_push_of_full_err um sz nc alloc v v1 x e log h hnc htev] at hok
        simp at hok
      | ok u =>
        cases u
        have hv1 : v1 = ⟨v.data, max v.cap nc⟩ := by
          have hst := try_extend_vec_ok_state um sz nc alloc v (by rw [htev])
          rw [htev] at hst
          exact hst
        rw [try_push_of_full_ok um sz nc alloc v v1 x log h hnc htev, hv1]
        simp only [std_push, FVec.len]
        have hlen : v.data.length = v.cap := by
          have := hfull
          simp only [FVec.len] at this
          omega
        by_cases hz : v.cap = 0
        · rw [if_pos hz] at hval ⊢
          subst hval
          rw [hz] at hlen ⊢
          simp [List.length_eq_zero.mp hlen]
        · rw [if_neg hz] at hval ⊢
          subst hval
          rw [hlen]
          have h1 : v.cap ≤ v.cap * 2 := by omega
          have h2 : v.cap + 1 ≤ v.cap * 2 := by omega
          omega

theorem try_push_growth_witness :
    FVec.len (⟨[0], 1⟩ : FVec Nat) = (⟨[0], 1⟩ : FVec Nat).cap ∧
    (try_push usizeMax64 (fun _ => true) 1 (⟨[0], 1⟩ : FVec Nat) 7).1 = Except.ok () ∧
    (try_push usizeMax64 (fun _ => true) 1 (⟨[0], 1⟩ : FVec Nat) 7).2.1.cap
      = if (⟨[0], 1⟩ : FVec Nat).cap = 0 then 4 else (⟨[0], 1⟩ : FVec Nat).cap * 2 :=
  ⟨by decide, rfl,
    (try_push_growth usizeMax64 1 (fun _ => true) (⟨[0], 1⟩ : FVec Nat) 7
      (by decide)).2 rfl⟩


/-- C4: `try_extend_from_slice` is all-or-nothing: on success the buffer
ends with exactly the slice's elements appended in order and its length
grows by the slice's length; on failure no element was copied and the
buffer is unchanged. -/
theorem try_extend_from_slice_post (um sz : Nat) (alloc : Nat → Bool) (v : FVec α)
    (other : List α) (hinv : v.len ≤ v.cap) :
    ((try_extend_from_slice um alloc sz v other).1 = Except.ok () →
      (try_extend_from_slice um alloc sz v other).2.1.data = v.data ++ other ∧
      (try_extend_from_slice um alloc sz v other).2.1.len = v.len + other.length) ∧
    (∀ e, (try_extend_from_slice um alloc sz v other).1 = Except.error e →
      (try_extend_from_slice um alloc sz v other).2.1 = v) := by
  rcases hres : try_reserve um alloc sz v other.length with ⟨res, v1, log⟩
  cases res with
  | ok u =>
    cases u
    have hv1 : v1 = ⟨v.data, max v.cap (v.len + other.length)⟩ := by
      have hst := try_reserve_ok_state um sz other.length alloc v hinv (by rw [hres])
      rw [hres] at hst
      exact hst
    constructor
    · intro _
      simp only [try_extend_from_slice, hres, hv1]
      constructor
      · rfl
      · simp [std_extend_from_slice, FVec.len]
    · intro e herr
      simp only [try_extend_from_slice, hres] at herr
      simp at herr
  | error e0 =>
    have hv1 : v1 = v := by
      have hst := try_reserve_err_state um sz other.length alloc v e0 (by rw [hres])
      rw [hres] at hst
      exact hst
    constructor
    · intro hok
      simp only [try_extend_from_slice, hres] at hok
      simp at hok
    · intro e _
      simp only [try_extend_from_slice, hres]
      exact hv1

theorem try_extend_from_slice_post_witness :
    FVec.len (⟨[102, 111, 111], 3⟩ : FVec Nat) ≤ (⟨[102, 111, 111], 3⟩ : FVec Nat).cap ∧
    (try_extend_from_slice usizeMax64 (fun _ => true) 1
        (⟨[102, 111, 111], 3⟩ : FVec Nat) [98, 97, 114]).1 = Except.ok () ∧
    (try_extend_from_slice usizeMax64 (fun _ => true) 1
        (⟨[102, 111, 111], 3⟩ : FVec Nat) [98, 97, 114]).2.1.data
      = [102, 111, 111, 98, 97, 114] ∧
    (try_extend_from_slice usizeMax64 (fun _ => true) 1
        (⟨[102, 111, 111], 3⟩ : FVec Nat) [98, 97, 114]).2.1.len = 6 :=
  ⟨by decide, rfl,
    ((try_extend_from_slice_post usizeMax64 1 (fun _ => true)
      (⟨[102, 111, 111], 3⟩ : FVec Nat) [98, 97, 114] (by decide)).1 rfl).1,
    ((try_extend_from_slice_post usizeMax64 1 (fun _ => true)
      (⟨[102, 111, 111], 3⟩ : FVec Nat) [98, 97, 114] (by decide)).1 rfl).2⟩

/-- C5 counterexample: on a vector with capacity `1` but length `0`
(e.g. `Vec::with_capacity(1)`, element size 1), `try_reserve(usize::MAX)`
does not overflow the capacity arithmetic (`new_cap = 0 + usize::MAX`),
an allocator request for `usize::MAX` bytes is made, and with a
cooperating allocator the call even succeeds — refuting both the claimed
deterministic overflow failure and the claimed absence of an allocator
call for every vector of capacity ≥ 1. -/
theorem try_reserve_usize_max_cex :
    (try_reserve usizeMax64 (fun _ => true) 1 (⟨[], 1⟩ : FVec Nat) usizeMax64).1
      = Except.ok () ∧
    (try_reserve usizeMax64 (fun _ => true) 1 (⟨[], 1⟩ : FVec Nat) usizeMax64).2.2
      = [usizeMax64] :=
  ⟨rfl, rfl⟩

/-- C5 (amended): for every vector with length ≥ 1 (hence capacity ≥ 1),
`try_reserve(vec, usize::MAX)` fails deterministically — for every
allocator behaviour — with a capacity-arithmetic overflow
(`capacity + computed increase` overflows `usize`), the vector is left
unchanged and no call to the allocator is attempted (the request log is
empty). -/
theorem try_reserve_usize_max_overflow (um sz : Nat) (alloc : Nat → Bool) (v : FVec α)
    (hinv : v.len ≤ v.cap) (hcap : v.cap ≤ um) (hlen : 1 ≤ v.len) :
    try_reserve um alloc sz v um = (Except.error (), v, []) := by
  have h : v.cap - v.len < um := by omega
  rcases hm : checked_add um v.cap (um - (v.cap - v.len)) with _ | nc
  · exact try_reserve_of_add_none um sz um alloc v h hm
  · exfalso
    unfold checked_add at hm
    split at hm
    · omega
    · simp at hm

theorem try_reserve_usize_max_overflow_witness :
    FVec.len (⟨[1], 1⟩ : FVec Nat) ≤ (⟨[1], 1⟩ : FVec Nat).cap ∧
    (⟨[1], 1⟩ : FVec Nat).cap ≤ usizeMax64 ∧
    1 ≤ FVec.len (⟨[1], 1⟩ : FVec Nat) ∧
    try_reserve usizeMax64 (fun _ => true) 4 (⟨[1], 1⟩ : FVec Nat) usizeMax64
      = (Except.error (), ⟨[1], 1⟩, []) :=
  ⟨by decide, by decide, by decide,
    try_reserve_usize_max_overflow usizeMax64 4 (fun _ => true) (⟨[1], 1⟩ : FVec Nat)
      (by decide) (by decide) (by decide)⟩

/-- C6: on an empty vector (capacity 0), `try_reserve(vec, usize::MAX)`
always fails and leaves the vector unchanged: for element sizes ≥ 2 the
byte-size computation `usize::MAX * size` overflows before any allocation,
and for element size 1 the allocator is asked for `usize::MAX` bytes — a
request covering the whole address space, which it cannot satisfy (the
hypothesis on `alloc`); in neither case is `Ok` returned, and the model is
total, so no panic occurs. -/
theorem try_reserve_empty_usize_max (um sz : Nat) (alloc : Nat → Bool)
    (hum : 1 ≤ um) (hsz : 1 ≤ sz) (halloc : sz = 1 → alloc um = false) :
    (try_reserve um alloc sz (⟨[], 0⟩ : FVec α) um).1 = Except.error () ∧
    (try_reserve um alloc sz (⟨[], 0⟩ : FVec α) um).2.1 = ⟨[], 0⟩ := by
  have h : (⟨[], 0⟩ : FVec α).cap - (⟨[], 0⟩ : FVec α).len < um := by
    simpa [FVec.len] using hum
  have hm : checked_add um (⟨[], 0⟩ : FVec α).cap
      (um - ((⟨[], 0⟩ : FVec α).cap - (⟨[], 0⟩ : FVec α).len)) = some um := by
    simp [checked_add, FVec.len]
  rw [try_reserve_of_add_some um sz um um alloc (⟨[], 0⟩ : FVec α) h hm]
  have hnle : ¬ um ≤ (⟨[], 0⟩ : FVec α).cap := by
    simp only [FVec.cap]
    omega
  rcases Nat.lt_or_ge sz 2 with hsz1 | hsz2
  · have hsz1 : sz = 1 := by omega
    subst hsz1
    have hmul : checked_mul um um 1 = some um := by
      simp [checked_mul]
    rw [try_extend_vec_of_alloc_false um 1 um um alloc (⟨[], 0⟩ : FVec α) hnle hmul
      (halloc rfl)]
    exact ⟨rfl, rfl⟩
  · have hmul : checked_mul um um sz = none := by
      unfold checked_mul
      rw [if_neg]
      have h2 : um * 2 ≤ um * sz := Nat.mul_le_mul_left um hsz2
      omega
    rw [try_extend_vec_of_mul_none um sz um alloc (⟨[], 0⟩ : FVec α) hnle hmul]
    exact ⟨rfl, rfl⟩

theorem try_reserve_empty_usize_max_witness :
    1 ≤ usizeMax64 ∧ 1 ≤ 4 ∧
    ((4 : Nat) = 1 → (fun _ => true : Nat → Bool) usizeMax64 = false) ∧
    (try_reserve usizeMax64 (fun _ => true) 4 (⟨[], 0⟩ : FVec Nat) usizeMax64).1
      = Except.error () ∧
    (try_reserve usizeMax64 (fun _ => true) 4 (⟨[], 0⟩ : FVec Nat) usizeMax64).2.1
      = ⟨[], 0⟩ :=
  ⟨by decide, by decide, by decide,
    (try_reserve_empty_usize_max usizeMax64 4 (fun _ => true) (by decide) (by decide)
      (by decide)).1,
    (try_reserve_empty_usize_max usizeMax64 4 (fun _ => true) (by decide) (by decide)
      (by decide)).2⟩


theorem try_read_to_end_of_limit_none (um : Nat) (alloc : Nat → Bool)
    (src : BoundedSource) (buf : FVec Nat)
    (hu : u64_to_usize um src.limit = none) :
    try_read_to_end um alloc src buf = (Except.error (), buf, []) := by
  simp [try_read_to_end, hu]

theorem try_read_to_end_of_reserve_ok (um limit n : Nat) (alloc : Nat → Bool)
    (src : BoundedSource) (buf buf1 buf2 : FVec Nat) (log : List Nat)
    (hu : u64_to_usize um src.limit = some limit)
    (hres : try_reserve um alloc 1 buf limit = (Except.ok (), buf1, log))
    (hread : take_read_to_end src buf1 = (Except.ok n, buf2)) :
    try_read_to_end um alloc src buf = (Except.ok n, buf2, log) := by
  simp [try_read_to_end, hu, hres, hread]

/-- C8: when the bounded source's declared remaining limit exceeds
`usize::MAX`, `try_read_to_end` fails before any reservation is made (the
allocator request log is empty) and before any byte is read from the
source, leaving the buffer exactly as it was. -/
theorem try_read_to_end_limit_overflow (um : Nat) (alloc : Nat → Bool)
    (src : BoundedSource) (buf : FVec Nat) (hlim : um < src.limit) :
    try_read_to_end um alloc src buf = (Except.error (), buf, []) := by
  apply try_read_to_end_of_limit_none
  unfold u64_to_usize
  rw [if_neg (by omega)]

theorem try_read_to_end_limit_overflow_witness :
    usizeMax32 < (4294967296 : Nat) ∧
    try_read_to_end usizeMax32 (fun _ => true)
        ⟨4294967296, [1, 2, 3], false⟩ ⟨[9], 1⟩
      = (Except.error (), ⟨[9], 1⟩, []) :=
  ⟨by decide,
    try_read_to_end_limit_overflow usizeMax32 (fun _ => true)
      ⟨4294967296, [1, 2, 3], false⟩ ⟨[9], 1⟩ (by decide)⟩

/-- C7: when `try_read_to_end` succeeds, the returned count is the number
of bytes actually read from the source (the bytes the source yields, cut
off at its declared limit), and exactly those bytes were appended to the
buffer.  The concrete scenario of the spec — source "1234567890" limited
to 5 bytes, empty buffer — returns `Ok 5` with buffer "12345"
(see the witness). -/
theorem try_read_to_end_count (um : Nat) (alloc : Nat → Bool)
    (src : BoundedSource) (buf : FVec Nat) (n : Nat)
    (hinv : buf.len ≤ buf.cap)
    (hok : (try_read_to_end um alloc src buf).1 = Except.ok n) :
    (try_read_to_end um alloc src buf).2.1.data
      = buf.data ++ src.contents.take src.limit ∧
    n = (src.contents.take src.limit).length := by
  rcases hu : u64_to_usize um src.limit with _ | limit
  · rw [try_read_to_end_of_limit_none um alloc src buf hu] at hok
    simp at hok
  · rcases hres : try_reserve um alloc 1 buf limit with ⟨res, buf1, log⟩
    cases res with
    | error e =>
      have : try_read_to_end um alloc src buf = (Except.error (), buf1, log) := by
        simp [try_read_to_end, hu, hres]
      rw [this] at hok
      simp at hok
    | ok u =>
      cases u
      rcases hread : take_read_to_end src buf1 with ⟨rres, buf2⟩
      cases rres with
      | error e =>
        have : try_read_to_end um alloc src buf = (Except.error (), buf2, log) := by
          simp [try_read_to_end, hu, hres, hread]
        rw [this] at hok
        simp at hok
      | ok m =>
        have heq := try_read_to_end_of_reserve_ok um limit m alloc src buf buf1 buf2 log
          hu hres hread
        rw [heq] at hok ⊢
        have hnm : n = m := by
          simpa using hok.symm
        have hbuf1 : buf1.data = buf.data := by
          have hst := try_reserve_ok_state um 1 limit alloc buf hinv (by rw [hres])
          rw [hres] at hst
          have hst2 : buf1 = ⟨buf.data, max buf.cap (buf.len + limit)⟩ := hst
          rw [hst2]
        have hgot : buf2 = std_extend_from_slice buf1 (src.contents.take src.limit) ∧
            m = (src.contents.take src.limit).length := by
          unfold take_read_to_end at hread
          split at hread
          · exact absurd hread (by simp)
          · refine ⟨?_, ?_⟩
            · injection hread with h1 h2
              exact h2.symm
            · injection hread with h1 h2
              injection h1 with h1
              exact h1.symm
        refine ⟨?_, ?_⟩
        · rw [hgot.1]
          simp [std_extend_from_slice, hbuf1]
        · rw [hnm, hgot.2]

theorem try_read_to_end_count_witness :
    FVec.len (⟨[], 0⟩ : FVec Nat) ≤ (⟨[], 0⟩ : FVec Nat).cap ∧
    (try_read_to_end usizeMax64 (fun _ => true)
        ⟨5, [49, 50, 51, 52, 53, 54, 55, 56, 57, 48], false⟩ ⟨[], 0⟩).1
      = Except.ok 5 ∧
    (try_read_to_end usizeMax64 (fun _ => true)
        ⟨5, [49, 50, 51, 52, 53, 54, 55, 56, 57, 48], false⟩ ⟨[], 0⟩).2.1.data
      = [49, 50, 51, 52, 53] ∧
    (5 : Nat) = ([49, 50, 51, 52, 53, 54, 55, 56, 57, 48].take 5).length :=
  ⟨by decide, rfl,
    by
      have h := (try_read_to_end_count usizeMax64 (fun _ => true)
        ⟨5, [49, 50, 51, 52, 53, 54, 55, 56, 57, 48], false⟩ ⟨[], 0⟩ 5
        (by decide) rfl).1
      simpa using h,
    (try_read_to_end_count usizeMax64 (fun _ => true)
      ⟨5, [49, 50, 51, 52, 53, 54, 55, 56, 57, 48], false⟩ ⟨[], 0⟩ 5
      (by decide) rfl).2⟩

end FallibleVec
